import Mathlib

/-!
Verification of the finalytics data-synchronization and analytics engine.

The definitions below are a shallow embedding of the TypeScript source:

* `calculateComparison`       — src/analysis.ts, lines 85–97
* `formatNumber` / `idFormat` — src/utils/string.ts, lines 59–62 (id-ID locale)
* `processData`               — src/main.ts, lines 539–577
* `groupByBucket`             — src/main.ts, lines 1665–1688 (bucketing pattern)
* cache reconciliation        — src/main.ts, lines 2740–2813
* `generatePeakHourAnalysis`  — src/main.ts, lines 4128–4177
* product quadrant chart      — src/main.ts, lines 5127–5201
* customer spending insights  — src/main.ts, lines 5693–5752
* customer analysis insights  — src/main.ts, lines 7074–7153

JavaScript numbers are modelled by `JSNum`: a rational value or one of the
special values NaN, Infinity, -Infinity.  Rational arithmetic stands in for
IEEE doubles; the special-value propagation rules follow JavaScript.
-/

/-- A JavaScript number: a finite (rational) value, NaN, or a signed infinity.
Note that `typeof x` is the string "number" for all four constructors. -/
inductive JSNum where
  | num (q : ℚ)
  | nan
  | inf
  | ninf
deriving DecidableEq, Repr

/-- JavaScript subtraction `a - b` on `JSNum`. -/
def jsSub : JSNum → JSNum → JSNum
  | JSNum.num a, JSNum.num b => JSNum.num (a - b)
  | JSNum.nan, _ => JSNum.nan
  | _, JSNum.nan => JSNum.nan
  | JSNum.num _, JSNum.inf => JSNum.ninf
  | JSNum.num _, JSNum.ninf => JSNum.inf
  | JSNum.inf, JSNum.num _ => JSNum.inf
  | JSNum.inf, JSNum.inf => JSNum.nan
  | JSNum.inf, JSNum.ninf => JSNum.inf
  | JSNum.ninf, JSNum.num _ => JSNum.ninf
  | JSNum.ninf, JSNum.inf => JSNum.ninf
  | JSNum.ninf, JSNum.ninf => JSNum.nan

/-- JavaScript division `a / b` on `JSNum` (positive zero only). -/
def jsDiv : JSNum → JSNum → JSNum
  | JSNum.nan, _ => JSNum.nan
  | _, JSNum.nan => JSNum.nan
  | JSNum.num a, JSNum.num b =>
      if b = 0 then
        (if 0 < a then JSNum.inf else if a < 0 then JSNum.ninf else JSNum.nan)
      else JSNum.num (a / b)
  | JSNum.num _, JSNum.inf => JSNum.num 0
  | JSNum.num _, JSNum.ninf => JSNum.num 0
  | JSNum.inf, JSNum.num b => if b < 0 then JSNum.ninf else JSNum.inf
  | JSNum.ninf, JSNum.num b => if b < 0 then JSNum.inf else JSNum.ninf
  | JSNum.inf, _ => JSNum.nan
  | JSNum.ninf, _ => JSNum.nan

/-- JavaScript multiplication by the literal 100. -/
def jsMul100 : JSNum → JSNum
  | JSNum.num a => JSNum.num (a * 100)
  | JSNum.nan => JSNum.nan
  | JSNum.inf => JSNum.inf
  | JSNum.ninf => JSNum.ninf

/-- JavaScript `Math.abs`. -/
def jsAbs : JSNum → JSNum
  | JSNum.num a => JSNum.num |a|
  | JSNum.nan => JSNum.nan
  | JSNum.inf => JSNum.inf
  | JSNum.ninf => JSNum.inf

/-- The JavaScript comparison `x > 0` (false for NaN). -/
def jsGtZero : JSNum → Bool
  | JSNum.num a => decide (0 < a)
  | JSNum.inf => true
  | JSNum.nan => false
  | JSNum.ninf => false

/-- Rounding to the nearest integer, ties away from zero: the default
`halfExpand` rounding mode of `Intl.NumberFormat`. -/
def roundHalfExpand (q : ℚ) : ℤ :=
  if 0 ≤ q then ⌊q + 1 / 2⌋ else -⌊(1 / 2) - q⌋

/-- Insert the id-ID thousands separator after every third digit, operating on
a reversed (least-significant-first) digit list. -/
def groupRev : List Char → List Char
  | c1 :: c2 :: c3 :: c4 :: rest => c1 :: c2 :: c3 :: '.' :: groupRev (c4 :: rest)
  | l => l

/-- Left-pad a digit list with the digit 0 to the given length. -/
def padZeros (n : Nat) (l : List Char) : List Char :=
  List.replicate (n - l.length) '0' ++ l

/-- Remove trailing zero digits (maximumFractionDigits with the default
minimumFractionDigits of 0 drops trailing fraction zeros). -/
def stripTrailingZeros (l : List Char) : List Char :=
  (l.reverse.dropWhile (fun c => c = '0')).reverse

/-- String assembly of the id-ID decimal format, given the value already
scaled by `10 ^ maxFrac` and rounded to an integer: thousands grouped by a
dot, comma as the decimal separator, no trailing fraction zeros. -/
def idFormatInt (r : ℤ) (maxFrac : Nat) : String :=
  let n : ℕ := r.natAbs
  let ip : ℕ := n / 10 ^ maxFrac
  let fp : ℕ := n % 10 ^ maxFrac
  let ipChars : List Char := (groupRev (Nat.repr ip).data.reverse).reverse
  let fracChars : List Char := stripTrailingZeros (padZeros maxFrac (Nat.repr fp).data)
  let body : String :=
    String.mk ipChars ++ (if fracChars.isEmpty then "" else "," ++ String.mk fracChars)
  if r < 0 then "-" ++ body else body

/-- `value.toLocaleString` with the id-ID locale and the given
`maximumFractionDigits`: thousands grouped by a dot, comma as the decimal
separator, halfExpand rounding, no trailing fraction zeros. -/
def idFormat (q : ℚ) (maxFrac : Nat) : String :=
  idFormatInt (roundHalfExpand (q * (10 : ℚ) ^ maxFrac)) maxFrac

theorem roundHalfExpand_nonneg (q : ℚ) (h : 0 ≤ q) : roundHalfExpand q = ⌊q + 1 / 2⌋ :=
  if_pos h

theorem idFormat_eq (q : ℚ) (d : Nat) (k : ℤ)
    (h : roundHalfExpand (q * (10 : ℚ) ^ d) = k) :
    idFormat q d = idFormatInt k d := by
  rw [idFormat, h]

/-- `formatNumber` from src/utils/string.ts: returns "0" for NaN (the
`isNaN` guard), otherwise formats with the id-ID locale.  The `typeof`
guard never fires for number inputs. -/
def formatNumber (value : JSNum) (fractionDigits : Nat) : String :=
  match value with
  | JSNum.nan => "0"
  | JSNum.num q => idFormat q fractionDigits
  | JSNum.inf => "∞"
  | JSNum.ninf => "-∞"

/-- The record returned by `calculateComparison` in src/analysis.ts. -/
structure ComparisonState where
  upOrDown : String
  percentage : String
  plusOrMinus : String
  difference : String
deriving DecidableEq, Repr

/-- The sentinel ("NotApplicable") result of `calculateComparison`. -/
def naResult : ComparisonState :=
  { upOrDown := "", percentage := "N/A", plusOrMinus := "", difference := "N/A" }

/-- `calculateComparison` from src/analysis.ts, lines 85–97.  The source
guard is `previous === 0 || typeof current !== 'number' || typeof previous
!== 'number'`; for `JSNum` inputs the two `typeof` tests are always false
(NaN and the infinities have `typeof` "number"), so the guard reduces to
`previous === 0`. -/
def calculateComparison (current previous : JSNum) : ComparisonState :=
  if previous = JSNum.num 0 then naResult
  else
    let diff := jsSub current previous
    let growth := jsMul100 (jsDiv diff previous)
    { upOrDown := if jsGtZero growth then "▲" else "▼"
      percentage := formatNumber (jsAbs growth) 1
      plusOrMinus := if jsGtZero growth then "+" else "-"
      difference := formatNumber (jsAbs diff) 0 }

/-- Claim C1, counterexample: for `previous = NaN` (not a finite number) the
comparator does not return the NotApplicable sentinel — the `typeof` guard
does not exclude NaN, so the claimed "exactly when previous is 0 or not a
finite number" fails; the actual result has direction "▼" and display
fields "0". -/
theorem c1_counterexample :
    calculateComparison (JSNum.num 1) JSNum.nan ≠ naResult ∧
    calculateComparison (JSNum.num 1) JSNum.nan =
      { upOrDown := "▼", percentage := "0", plusOrMinus := "-", difference := "0" } := by
  constructor
  · decide
  · rfl

/-- Claim C1 (amended): the comparator returns the NotApplicable sentinel
(direction empty, percentage "N/A", sign empty, difference "N/A") exactly
when `previous` equals 0; in particular `compare(x, 0)` is NotApplicable
for every `x`, while a non-finite `previous` (NaN or an infinity) passes
the guard. -/
theorem c1_na_iff_previous_zero (current previous : JSNum) :
    calculateComparison current previous = naResult ↔ previous = JSNum.num 0 := by
  constructor
  · intro h
    by_contra hp
    unfold calculateComparison at h
    rw [if_neg hp] at h
    have h1 := congrArg ComparisonState.upOrDown h
    simp only [naResult] at h1
    by_cases hg : jsGtZero (jsMul100 (jsDiv (jsSub current previous) previous))
    · rw [if_pos hg] at h1
      exact absurd h1 (by decide)
    · rw [if_neg hg] at h1
      exact absurd h1 (by decide)
  · intro h
    subst h
    rfl

/-- Evaluation of `calculateComparison` on finite numbers with a nonzero
previous value, with the branch on `growth > 0` expressed as a
propositional `if`. -/
theorem calculateComparison_num (c p : ℚ) (hp : p ≠ 0) :
    calculateComparison (JSNum.num c) (JSNum.num p) =
      { upOrDown := if 0 < (c - p) / p * 100 then "▲" else "▼"
        percentage := idFormat |(c - p) / p * 100| 1
        plusOrMinus := if 0 < (c - p) / p * 100 then "+" else "-"
        difference := idFormat |c - p| 0 } := by
  have hne : JSNum.num p ≠ JSNum.num 0 := by
    intro h
    injection h with h2
    exact hp h2
  unfold calculateComparison
  rw [if_neg hne]
  simp only [jsSub, jsDiv, if_neg hp, jsMul100, jsAbs, jsGtZero, formatNumber,
    decide_eq_true_eq]

/-- Claim C6, counterexample: the claim as stated fails.  First,
`compare(100, 50)` yields percentage "100", not "100.0" — `formatNumber`
has no minimum fraction digits, so integer percentages carry no decimal
part.  Second, for a negative previous value the direction is not "Up
exactly when current > previous": `compare(1, -1)` has `1 > -1` yet
reports direction "▼", because the growth `(current-previous)/previous`
is negative. -/
theorem c6_counterexample :
    (calculateComparison (JSNum.num 100) (JSNum.num 50)).percentage ≠ "100.0" ∧
    (calculateComparison (JSNum.num 100) (JSNum.num 50)).percentage = "100" ∧
    ((1 : ℚ) > -1) ∧
    (calculateComparison (JSNum.num 1) (JSNum.num (-1))).upOrDown = "▼" := by
  have e1 : (calculateComparison (JSNum.num 100) (JSNum.num 50)).percentage = "100" := by
    rw [calculateComparison_num 100 50 (by norm_num)]
    show idFormat |((100 : ℚ) - 50) / 50 * 100| 1 = "100"
    rw [show |((100 : ℚ) - 50) / 50 * 100| = 100 by norm_num,
      idFormat_eq 100 1 1000 (by rw [roundHalfExpand_nonneg _ (by norm_num)]; norm_num)]
    decide
  have e2 : (calculateComparison (JSNum.num 1) (JSNum.num (-1))).upOrDown = "▼" := by
    rw [calculateComparison_num 1 (-1) (by norm_num)]
    show (if (0 : ℚ) < (1 - -1) / -1 * 100 then "▲" else "▼") = "▼"
    rw [if_neg (by norm_num)]
  exact ⟨by rw [e1]; decide, e1, by norm_num, e2⟩

/-- Claim C6 (amended): for finite `current` and finite nonzero `previous`,
the comparator reports direction "▲" exactly when the growth
`(current-previous)/previous` is positive (equivalently when
`(current-previous)·previous > 0`; equal values yield "▼", and for a
negative previous the direction is inverted relative to
`current > previous`); the displayed percentage is
`|current-previous| / |previous| · 100` formatted with the id-ID locale and
at most one fraction digit (integer values render with no decimal part),
and the displayed difference is `|current-previous|` formatted with no
fraction digits — `compare(100, 50)` gives "▲", percentage "100",
difference "50". -/
theorem c6_comparison_formula (c p : ℚ) (hp : p ≠ 0) :
    (calculateComparison (JSNum.num c) (JSNum.num p)).upOrDown
        = (if 0 < (c - p) / p then "▲" else "▼") ∧
    ((calculateComparison (JSNum.num c) (JSNum.num p)).upOrDown = "▲" ↔ 0 < (c - p) * p) ∧
    (calculateComparison (JSNum.num c) (JSNum.num p)).percentage
        = idFormat (|c - p| / |p| * 100) 1 ∧
    (calculateComparison (JSNum.num c) (JSNum.num p)).difference = idFormat |c - p| 0 := by
  have hgrowth : (0 < (c - p) / p * 100) ↔ (0 < (c - p) / p) := by
    constructor
    · intro h; nlinarith
    · intro h; nlinarith
  have hdivmul : (0 < (c - p) / p) ↔ (0 < (c - p) * p) := by
    constructor
    · intro h
      rcases div_pos_iff.mp h with ⟨h1, h2⟩ | ⟨h1, h2⟩
      · exact mul_pos h1 h2
      · exact mul_pos_of_neg_of_neg h1 h2
    · intro h
      rcases mul_pos_iff.mp h with ⟨h1, h2⟩ | ⟨h1, h2⟩
      · exact div_pos h1 h2
      · exact div_pos_of_neg_of_neg h1 h2
  have hu : (calculateComparison (JSNum.num c) (JSNum.num p)).upOrDown
      = (if 0 < (c - p) / p * 100 then "▲" else "▼") := by
    rw [calculateComparison_num c p hp]
  have hpct : (calculateComparison (JSNum.num c) (JSNum.num p)).percentage
      = idFormat |(c - p) / p * 100| 1 := by
    rw [calculateComparison_num c p hp]
  have hdiff : (calculateComparison (JSNum.num c) (JSNum.num p)).difference
      = idFormat |c - p| 0 := by
    rw [calculateComparison_num c p hp]
  refine ⟨hu.trans (if_congr hgrowth rfl rfl), ?_, ?_, hdiff⟩
  · rw [hu]
    constructor
    · intro h
      by_cases hg : 0 < (c - p) / p * 100
      · exact hdivmul.mp (hgrowth.mp hg)
      · rw [if_neg hg] at h
        exact absurd h (by decide)
    · intro h
      exact if_pos (hgrowth.mpr (hdivmul.mpr h))
  · have habs : |(c - p) / p * 100| = |c - p| / |p| * 100 := by
      rw [abs_mul, abs_div]
      norm_num
    rw [hpct, habs]

/-- Witness for `c6_comparison_formula` at current 100, previous 50. -/
theorem c6_comparison_formula_witness :
    (50 : ℚ) ≠ 0 ∧
    (calculateComparison (JSNum.num 100) (JSNum.num 50)).upOrDown
        = (if 0 < ((100 : ℚ) - 50) / 50 then "▲" else "▼") :=
  ⟨by norm_num, (c6_comparison_formula 100 50 (by norm_num)).1⟩

/-- One normalized sales line item, as consumed by the aggregation
functions of src/main.ts.  `salesDateIn` is the epoch timestamp of the
"Sales Date In" `Date`; `hourOfDay` is the value of `getHours()` and
`dateKey` the value of `toISOString().split('T')[0]` for that date. -/
structure SalesRow where
  billNumber : String
  revenue : ℚ
  quantity : ℚ
  menu : String
  menuCategory : String
  customerName : Option String
  salesDateIn : ℤ
  hourOfDay : ℕ
  dateKey : String
deriving DecidableEq, Repr

/-- One step of the `acc[key] = (acc[key] || 0) + value` accumulation
pattern on a string-keyed object, modelled as an insertion-ordered
association list: an existing key has its value increased in place, a new
key is appended. -/
def bump : List (String × ℚ) → String → ℚ → List (String × ℚ)
  | [], k, v => [(k, v)]
  | (k', v') :: rest, k, v =>
      if k' = k then (k', v' + v) :: rest else (k', v') :: bump rest k v

/-- The generic bucketing pass shared by the per-chart aggregation
functions (for example the `dailyOmzet` reduce of
`generateOmzetHarianChart`, src/main.ts lines 1666–1670): one fold over
the records, accumulating net revenue per bucket key. -/
def groupByBucket (records : List SalesRow) (bucketFn : SalesRow → String) :
    List (String × ℚ) :=
  records.foldl (fun acc d => bump acc (bucketFn d) d.revenue) []

theorem bump_sum (acc : List (String × ℚ)) (k : String) (v : ℚ) :
    ((bump acc k v).map Prod.snd).sum = (acc.map Prod.snd).sum + v := by
  induction acc with
  | nil => simp [bump]
  | cons hd tl ih =>
      obtain ⟨k', v'⟩ := hd
      by_cases h : k' = k
      · simp only [bump, if_pos h, List.map_cons, List.sum_cons]
        ring
      · simp only [bump, if_neg h, List.map_cons, List.sum_cons, ih]
        ring

theorem groupByBucket_foldl_sum (records : List SalesRow) (bucketFn : SalesRow → String)
    (acc : List (String × ℚ)) :
    (((records.foldl (fun acc d => bump acc (bucketFn d) d.revenue) acc)).map Prod.snd).sum
      = (acc.map Prod.snd).sum + (records.map SalesRow.revenue).sum := by
  induction records generalizing acc with
  | nil => simp
  | cons hd tl ih =>
      simp only [List.foldl_cons, List.map_cons, List.sum_cons, ih, bump_sum]
      ring

/-- Claim C3: for every non-empty record set and every bucketing key
function, the sum of the per-bucket revenue totals produced by grouping
equals the total net revenue of the input records — bucketing is a
revenue-preserving partition. -/
theorem c3_bucketing_preserves_revenue (records : List SalesRow)
    (bucketFn : SalesRow → String) (hne : records ≠ []) :
    ((groupByBucket records bucketFn).map Prod.snd).sum
      = (records.map SalesRow.revenue).sum := by
  unfold groupByBucket
  rw [groupByBucket_foldl_sum]
  simp

/-- A small concrete record used by witnesses. -/
def mkRow (bill : String) (rev : ℚ) : SalesRow :=
  { billNumber := bill, revenue := rev, quantity := 1, menu := "Nasi Goreng"
    menuCategory := "Food", customerName := none, salesDateIn := 0
    hourOfDay := 12, dateKey := "2024-01-15" }

/-- Witness for `c3_bucketing_preserves_revenue` on a two-record set
bucketed by day key. -/
theorem c3_bucketing_preserves_revenue_witness :
    [mkRow "B1" 10, mkRow "B2" 20] ≠ ([] : List SalesRow) ∧
    ((groupByBucket [mkRow "B1" 10, mkRow "B2" 20] SalesRow.dateKey).map Prod.snd).sum
      = ([mkRow "B1" 10, mkRow "B2" 20].map SalesRow.revenue).sum :=
  ⟨List.cons_ne_nil _ _,
    c3_bucketing_preserves_revenue [mkRow "B1" 10, mkRow "B2" 20] SalesRow.dateKey
      (List.cons_ne_nil _ _)⟩

/-- First-occurrence list of the distinct elements of a string list (the
key order of a JavaScript object built by repeated insertion). -/
def distinctFirst (l : List String) : List String :=
  l.foldl (fun ks b => if b ∈ ks then ks else ks ++ [b]) []

/-- Net-revenue total of the records whose key equals `b`. -/
def totalFor (records : List SalesRow) (key : SalesRow → String) (b : String) : ℚ :=
  ((records.filter (fun r => key r = b)).map SalesRow.revenue).sum

theorem distinctFirst_go_nodup (m : List String) (ks : List String) (h : ks.Nodup) :
    (m.foldl (fun ks b => if b ∈ ks then ks else ks ++ [b]) ks).Nodup := by
  induction m generalizing ks with
  | nil => exact h
  | cons b m ih =>
      simp only [List.foldl_cons]
      by_cases hb : b ∈ ks
      · rw [if_pos hb]
        exact ih ks h
      · rw [if_neg hb]
        refine ih _ (List.nodup_append.mpr ⟨h, List.nodup_singleton b, ?_⟩)
        intro a ha hamem
        rw [List.mem_singleton] at hamem
        exact hb (hamem ▸ ha)

theorem distinctFirst_nodup (m : List String) : (distinctFirst m).Nodup :=
  distinctFirst_go_nodup m [] List.nodup_nil

theorem distinctFirst_go_mem (m : List String) (ks : List String) (a : String) :
    a ∈ m.foldl (fun ks b => if b ∈ ks then ks else ks ++ [b]) ks ↔ a ∈ ks ∨ a ∈ m := by
  induction m generalizing ks with
  | nil => simp
  | cons b m ih =>
      simp only [List.foldl_cons]
      by_cases hb : b ∈ ks
      · rw [if_pos hb, ih]
        constructor
        · rintro (h | h)
          · exact Or.inl h
          · exact Or.inr (List.mem_cons_of_mem b h)
        · rintro (h | h)
          · exact Or.inl h
          · rcases List.mem_cons.mp h with rfl | h
            · exact Or.inl hb
            · exact Or.inr h
      · rw [if_neg hb, ih]
        simp only [List.mem_append, List.mem_singleton, List.mem_cons]
        tauto

theorem mem_distinctFirst (m : List String) (a : String) :
    a ∈ distinctFirst m ↔ a ∈ m := by
  rw [distinctFirst, distinctFirst_go_mem]
  simp

theorem distinctFirst_append_singleton (m : List String) (b : String) :
    distinctFirst (m ++ [b])
      = if b ∈ distinctFirst m then distinctFirst m else distinctFirst m ++ [b] := by
  rw [distinctFirst, List.foldl_append]
  rfl

theorem bump_not_mem (acc : List (String × ℚ)) (k : String) (v : ℚ)
    (h : k ∉ acc.map Prod.fst) : bump acc k v = acc ++ [(k, v)] := by
  induction acc with
  | nil => rfl
  | cons hd tl ih =>
      obtain ⟨k', v'⟩ := hd
      simp only [List.map_cons, List.mem_cons] at h
      push_neg at h
      simp only [bump, if_neg (fun hh : k' = k => h.1 hh.symm), List.cons_append,
        ih h.2]

theorem bump_mem (acc : List (String × ℚ)) (k : String) (v : ℚ)
    (hnd : (acc.map Prod.fst).Nodup) (h : k ∈ acc.map Prod.fst) :
    bump acc k v = acc.map (fun e => if e.1 = k then (e.1, e.2 + v) else e) := by
  induction acc with
  | nil => simp at h
  | cons hd tl ih =>
      obtain ⟨k', v'⟩ := hd
      simp only [List.map_cons, List.nodup_cons] at hnd
      simp only [List.map_cons, List.mem_cons] at h
      by_cases hk : k' = k
      · subst hk
        simp only [bump, if_pos rfl]
        have hid : tl.map (fun e => if e.1 = k' then (e.1, e.2 + v) else e) = tl := by
          conv_rhs => rw [← List.map_id tl]
          apply List.map_congr_left
          intro e he
          rw [if_neg (fun hek : e.1 = k' => hnd.1 (hek ▸ List.mem_map_of_mem Prod.fst he))]
          rfl
        simp [hid]
      · rcases h with h | h
        · exact absurd h.symm hk
        · simp only [bump, if_neg hk, ih hnd.2 h, List.map_cons]

/-- The bucketing fold equals its canonical description: one entry per
distinct key in first-occurrence order, carrying the total revenue of the
records with that key. -/
theorem groupByBucket_eq_canonical (records : List SalesRow) (key : SalesRow → String) :
    groupByBucket records key
      = (distinctFirst (records.map key)).map (fun b => (b, totalFor records key b)) := by
  induction records using List.reverseRecOn with
  | nil => rfl
  | append_singleton l r ih =>
      have hstep : groupByBucket (l ++ [r]) key
          = bump (groupByBucket l key) (key r) r.revenue := by
        unfold groupByBucket
        rw [List.foldl_append]
        rfl
      have hkeys : (groupByBucket l key).map Prod.fst = distinctFirst (l.map key) := by
        rw [ih, List.map_map]
        conv_rhs => rw [← List.map_id (distinctFirst (l.map key))]
        apply List.map_congr_left
        intro b hb
        rfl
      have htot : ∀ b, totalFor (l ++ [r]) key b
          = totalFor l key b + (if key r = b then r.revenue else 0) := by
        intro b
        unfold totalFor
        rw [List.filter_append, List.map_append, List.sum_append]
        congr 1
        by_cases hb : key r = b
        · subst hb
          simp [List.filter_cons]
        · simp [List.filter_cons, hb]
      rw [hstep]
      have hm : (l ++ [r]).map key = l.map key ++ [key r] := by simp
      rw [hm, distinctFirst_append_singleton]
      by_cases hmem : key r ∈ distinctFirst (l.map key)
      · rw [if_pos hmem, bump_mem _ _ _ (hkeys ▸ distinctFirst_nodup (l.map key))
          (hkeys ▸ hmem), ih, List.map_map]
        apply List.map_congr_left
        intro b hb
        simp only [Function.comp_apply, htot b]
        by_cases hbk : b = key r
        · subst hbk
          rw [if_pos rfl, if_pos rfl]
        · rw [if_neg hbk, if_neg (fun hh => hbk hh.symm), add_zero]
      · rw [if_neg hmem, bump_not_mem _ _ _ (hkeys ▸ hmem), ih, List.map_append]
        congr 1
        · apply List.map_congr_left
          intro b hb
          have hbk : key r ≠ b := fun hh => hmem (hh ▸ hb)
          rw [htot b, if_neg hbk, add_zero]
        · have h0 : totalFor l key (key r) = 0 := by
            unfold totalFor
            have hnil : l.filter (fun r2 => key r2 = key r) = [] := by
              rw [List.filter_eq_nil_iff]
              intro a ha hpa
              rw [decide_eq_true_eq] at hpa
              exact hmem ((mem_distinctFirst (l.map key) (key r)).mpr
                (hpa ▸ List.mem_map_of_mem key ha))
            rw [hnil]
            rfl
          simp [List.map_cons, List.map_nil, htot (key r), h0]

/-- The per-bill totals list built by the reduce in
`generateCustomerSpendingInsights` (src/main.ts lines 5697–5702):
`Object.values` of the `acc[bill] += revenue` accumulation object, in key
insertion order. -/
def billTotalsList (records : List SalesRow) : List ℚ :=
  (groupByBucket records SalesRow.billNumber).map Prod.snd

/-- `arr[i] || 0` for a JavaScript array index that may be out of range:
negative or past-the-end indices give `undefined`, which `|| 0` turns into
0 (an in-range value of 0 also yields 0, the same value). -/
def jsIndexGet (l : List ℚ) (i : ℤ) : ℚ :=
  if i < 0 then 0 else l.getD i.toNat 0

/-- The sorted bill totals of src/main.ts line 5710: the JavaScript stable
sort under the ascending numeric comparator `(a, b) => a - b`. -/
def sortedBillTotals (records : List SalesRow) : List ℚ :=
  List.insertionSort (· ≤ ·) (billTotalsList records)

/-- The percentile computation inlined in `generateCustomerSpendingInsights`
(src/main.ts lines 5697–5714): group line items into per-bill totals, sort
ascending, read the element at index `floor(p * length)`, defaulting to 0. -/
def percentileOfSortedBillTotals (records : List SalesRow) (p : ℚ) : ℚ :=
  jsIndexGet (sortedBillTotals records)
    ⌊p * ((sortedBillTotals records).length : ℚ)⌋

/-- Per-bill totals as worded by the spec (§4.3): for each distinct bill
number, the sum of net revenue over its line items. -/
def specBillTotals (records : List SalesRow) : List ℚ :=
  (distinctFirst (records.map SalesRow.billNumber)).map
    (fun b => totalFor records SalesRow.billNumber b)

/-- The spec's `percentileOfSortedBillTotals(records, p)` (§4.3): groups
line items into per-bill totals, sorts ascending, returns the value at
index `floor(p * length)`; returns 0 on empty input. -/
def specPercentileOfSortedBillTotals (records : List SalesRow) (p : ℚ) : ℚ :=
  let sorted := (specBillTotals records).mergeSort (fun a b => decide (a ≤ b))
  if sorted = [] then 0 else sorted.getD (⌊p * (sorted.length : ℚ)⌋).toNat 0

theorem billTotalsList_eq_spec (records : List SalesRow) :
    billTotalsList records = specBillTotals records := by
  unfold billTotalsList specBillTotals
  rw [groupByBucket_eq_canonical, List.map_map]
  rfl

theorem insertionSort_le_eq_mergeSort (l : List ℚ) :
    List.insertionSort (· ≤ ·) l = l.mergeSort (fun a b => decide (a ≤ b)) := by
  have htrans : ∀ a b c : ℚ, (fun a b => decide (a ≤ b)) a b = true →
      (fun a b => decide (a ≤ b)) b c = true → (fun a b => decide (a ≤ b)) a c = true := by
    intro a b c hab hbc
    simp only [decide_eq_true_eq] at *
    exact le_trans hab hbc
  have htotal : ∀ a b : ℚ, ((fun a b => decide (a ≤ b)) a b
      || (fun a b => decide (a ≤ b)) b a) = true := by
    intro a b
    simp only [Bool.or_eq_true, decide_eq_true_eq]
    exact le_total a b
  have hperm : (List.insertionSort (· ≤ ·) l).Perm
      (l.mergeSort (fun a b => decide (a ≤ b))) :=
    (List.perm_insertionSort _ l).trans (List.mergeSort_perm l _).symm
  have hs1 : List.Sorted (· ≤ ·) (List.insertionSort (· ≤ ·) l) :=
    List.sorted_insertionSort _ l
  have hs2 : List.Sorted (· ≤ ·) (l.mergeSort (fun a b => decide (a ≤ b))) := by
    have hp := List.sorted_mergeSort htrans htotal l
    exact hp.imp (fun h => by simpa using h)
  exact List.eq_of_perm_of_sorted hperm hs1 hs2

theorem sortedBillTotals_eq_specSorted (records : List SalesRow) :
    sortedBillTotals records
      = (specBillTotals records).mergeSort (fun a b => decide (a ≤ b)) := by
  rw [sortedBillTotals, billTotalsList_eq_spec, insertionSort_le_eq_mergeSort]

/-- Claim C8: the bill-total percentile operation groups line items into
per-bill totals, sorts them ascending and returns the element at index
`floor(p * length)` — it coincides with the spec's
`percentileOfSortedBillTotals` for every nonnegative `p`; it returns 0 on
empty input; and on bill totals 10, 20, 30, 40 the 25th percentile is the
element at index `floor(0.25 * 4) = 1`, namely 20. -/
theorem c8_percentile_refines_spec :
    (∀ p : ℚ, percentileOfSortedBillTotals [] p = 0) ∧
    (∀ (records : List SalesRow) (p : ℚ), 0 ≤ p →
      percentileOfSortedBillTotals records p = specPercentileOfSortedBillTotals records p) ∧
    percentileOfSortedBillTotals
      [mkRow "B1" 10, mkRow "B2" 12, mkRow "B2" 8, mkRow "B3" 30, mkRow "B4" 40]
      (1 / 4) = 20 := by
  refine ⟨?_, ?_, ?_⟩
  · intro p
    simp [percentileOfSortedBillTotals, sortedBillTotals, billTotalsList, groupByBucket,
      jsIndexGet]
  · intro records p hp
    unfold percentileOfSortedBillTotals specPercentileOfSortedBillTotals
    rw [sortedBillTotals_eq_specSorted]
    set sorted := (specBillTotals records).mergeSort (fun a b => decide (a ≤ b)) with hs
    by_cases hnil : sorted = []
    · rw [if_pos hnil, hnil]
      simp [jsIndexGet]
    · rw [if_neg hnil]
      have hflr : 0 ≤ ⌊p * (sorted.length : ℚ)⌋ :=
        Int.floor_nonneg.mpr (mul_nonneg hp (by positivity))
      rw [jsIndexGet, if_neg (not_lt.mpr hflr)]
  · norm_num [percentileOfSortedBillTotals, sortedBillTotals, billTotalsList,
      groupByBucket, bump, mkRow, jsIndexGet, List.insertionSort, List.orderedInsert,
      List.getD, List.foldl]

/-- Witness for the quantified parts of `c8_percentile_refines_spec` at a
concrete record set and p = 1/4. -/
theorem c8_percentile_refines_spec_witness :
    (0 : ℚ) ≤ 1 / 4 ∧
    percentileOfSortedBillTotals [mkRow "B1" 10] (1 / 4)
      = specPercentileOfSortedBillTotals [mkRow "B1" 10] (1 / 4) :=
  ⟨by norm_num, c8_percentile_refines_spec.2.1 [mkRow "B1" 10] (1 / 4) (by norm_num)⟩

/-- Per-product aggregate used by `generateProductQuadrantChart`
(src/main.ts lines 5137–5150): name with summed revenue and quantity. -/
structure ProductStat where
  name : String
  revenue : ℚ
  quantity : ℚ
deriving DecidableEq, Repr

/-- `d.Menu || 'Unknown'`: an empty (falsy) menu name becomes "Unknown". -/
def menuKey (d : SalesRow) : String :=
  if d.menu = "" then "Unknown" else d.menu

/-- The `acc[menu].revenue += ..., acc[menu].quantity += ...` accumulation
of `generateProductQuadrantChart`, as an insertion-ordered list. -/
def bumpStat : List ProductStat → String → ℚ → ℚ → List ProductStat
  | [], k, rev, qty => [{ name := k, revenue := rev, quantity := qty }]
  | p :: rest, k, rev, qty =>
      if p.name = k then
        { name := p.name, revenue := p.revenue + rev, quantity := p.quantity + qty } :: rest
      else p :: bumpStat rest k rev qty

/-- `statsArray` of `generateProductQuadrantChart`: per-product revenue and
quantity aggregated over the records of the requested menu category. -/
def statsArray (data : List SalesRow) (category : String) : List ProductStat :=
  (data.filter (fun d => d.menuCategory = category)).foldl
    (fun acc d => bumpStat acc (menuKey d) d.revenue d.quantity) []

/-- Average revenue across a product slice (sum divided by length). -/
def avgRevenue (s : List ProductStat) : ℚ :=
  (s.map ProductStat.revenue).sum / s.length

/-- Average quantity across a product slice (sum divided by length). -/
def avgQuantity (s : List ProductStat) : ℚ :=
  (s.map ProductStat.quantity).sum / s.length

/-- The four product quadrants of `generateProductQuadrantChart`. -/
inductive Quadrant where
  | star
  | cashcow
  | horse
  | dog
deriving DecidableEq, Repr

/-- The if/else-if classification chain of `generateProductQuadrantChart`
(src/main.ts lines 5162–5167): revenue and quantity each compared with the
slice average. -/
def quadrantOf (aR aQ : ℚ) (p : ProductStat) : Quadrant :=
  if aR ≤ p.revenue ∧ aQ ≤ p.quantity then Quadrant.star
  else if aR ≤ p.revenue ∧ p.quantity < aQ then Quadrant.cashcow
  else if p.revenue < aR ∧ aQ ≤ p.quantity then Quadrant.horse
  else Quadrant.dog

/-- One quadrant's product list: the products pushed into that quadrant in
record order, then sorted by revenue descending (`b.revenue - a.revenue`,
a stable sort). -/
def quadrantList (data : List SalesRow) (category : String) (q : Quadrant) :
    List ProductStat :=
  List.insertionSort (fun a b => b.revenue ≤ a.revenue)
    ((statsArray data category).filter
      (fun p => quadrantOf (avgRevenue (statsArray data category))
        (avgQuantity (statsArray data category)) p = q))

theorem filter_four_quadrants_perm (s : List ProductStat) (f : ProductStat → Quadrant) :
    (s.filter (fun p => f p = Quadrant.star) ++ s.filter (fun p => f p = Quadrant.cashcow)
      ++ s.filter (fun p => f p = Quadrant.horse)
      ++ s.filter (fun p => f p = Quadrant.dog)).Perm s := by
  induction s with
  | nil => simp
  | cons a s ih =>
      cases hq : f a with
      | star =>
          rw [List.filter_cons, List.filter_cons, List.filter_cons, List.filter_cons,
            if_pos (by rw [hq]; decide), if_neg (by rw [hq]; decide),
            if_neg (by rw [hq]; decide), if_neg (by rw [hq]; decide)]
          simp only [List.cons_append]
          exact ih.cons a
      | cashcow =>
          rw [List.filter_cons, List.filter_cons, List.filter_cons, List.filter_cons,
            if_neg (by rw [hq]; decide), if_pos (by rw [hq]; decide),
            if_neg (by rw [hq]; decide), if_neg (by rw [hq]; decide)]
          refine ((List.perm_middle.append_right _).append_right _).trans ?_
          simp only [List.cons_append]
          exact ih.cons a
      | horse =>
          rw [List.filter_cons, List.filter_cons, List.filter_cons, List.filter_cons,
            if_neg (by rw [hq]; decide), if_neg (by rw [hq]; decide),
            if_pos (by rw [hq]; decide), if_neg (by rw [hq]; decide)]
          refine (List.perm_middle.append_right _).trans ?_
          simp only [List.cons_append]
          exact ih.cons a
      | dog =>
          rw [List.filter_cons, List.filter_cons, List.filter_cons, List.filter_cons,
            if_neg (by rw [hq]; decide), if_neg (by rw [hq]; decide),
            if_neg (by rw [hq]; decide), if_pos (by rw [hq]; decide)]
          exact List.perm_middle.trans (ih.cons a)

theorem sorted_insertionSort_revdesc (l : List ProductStat) :
    List.Sorted (fun a b : ProductStat => b.revenue ≤ a.revenue)
      (List.insertionSort (fun a b : ProductStat => b.revenue ≤ a.revenue) l) :=
  @List.sorted_insertionSort ProductStat (fun a b => b.revenue ≤ a.revenue) _
    ⟨fun a b => le_total b.revenue a.revenue⟩
    ⟨fun _ _ _ hab hbc => le_trans hbc hab⟩ l

/-- Claim C7: for every non-empty product category slice, each product of
the aggregated slice lies in exactly the quadrant list given by the
classification against the slice averages (so the four quadrant lists
partition the product set with no overlaps and no omissions, also when all
products are identical), the four lists together are a permutation of the
slice, and each list is sorted by revenue descending. -/
theorem c7_quadrant_partition (data : List SalesRow) (category : String)
    (hne : data.filter (fun d => d.menuCategory = category) ≠ []) :
    (∀ p ∈ statsArray data category, ∀ q : Quadrant,
        p ∈ quadrantList data category q ↔
          quadrantOf (avgRevenue (statsArray data category))
            (avgQuantity (statsArray data category)) p = q) ∧
    (quadrantList data category Quadrant.star ++ quadrantList data category Quadrant.cashcow
      ++ quadrantList data category Quadrant.horse
      ++ quadrantList data category Quadrant.dog).Perm (statsArray data category) ∧
    (∀ q : Quadrant, List.Sorted (fun a b : ProductStat => b.revenue ≤ a.revenue)
        (quadrantList data category q)) := by
  refine ⟨?_, ?_, fun q => sorted_insertionSort_revdesc _⟩
  · intro p hp q
    unfold quadrantList
    rw [(List.perm_insertionSort _ _).mem_iff, List.mem_filter]
    constructor
    · intro h
      exact of_decide_eq_true h.2
    · intro h
      exact ⟨hp, decide_eq_true h⟩
  · have hperm : ∀ q : Quadrant, (quadrantList data category q).Perm
        ((statsArray data category).filter
          (fun p => quadrantOf (avgRevenue (statsArray data category))
            (avgQuantity (statsArray data category)) p = q)) :=
      fun q => List.perm_insertionSort _ _
    exact ((((hperm Quadrant.star).append (hperm Quadrant.cashcow)).append
      (hperm Quadrant.horse)).append (hperm Quadrant.dog)).trans
      (filter_four_quadrants_perm (statsArray data category)
        (fun p => quadrantOf (avgRevenue (statsArray data category))
          (avgQuantity (statsArray data category)) p))

/-- Witness for `c7_quadrant_partition` on a slice whose two products have
identical revenue and quantity (both land in the star quadrant). -/
theorem c7_quadrant_partition_witness :
    (let rows := [{ mkRow "B1" 10 with menu := "Sate", menuCategory := "Food" },
                  { mkRow "B2" 10 with menu := "Soto", menuCategory := "Food" }]
     rows.filter (fun d => d.menuCategory = "Food") ≠ []) ∧
    (let rows := [{ mkRow "B1" 10 with menu := "Sate", menuCategory := "Food" },
                  { mkRow "B2" 10 with menu := "Soto", menuCategory := "Food" }]
     (quadrantList rows "Food" Quadrant.star ++ quadrantList rows "Food" Quadrant.cashcow
       ++ quadrantList rows "Food" Quadrant.horse
       ++ quadrantList rows "Food" Quadrant.dog).Perm (statsArray rows "Food")) :=
  ⟨by decide, (c7_quadrant_partition _ "Food" (by decide)).2.1⟩

/-- The `hourlyTraffic` array of `generatePeakHourAnalysis` (src/main.ts
lines 4132–4138): for each hour of day present in the data, in ascending
hour order (`Object.entries` enumerates integer-like keys in ascending
numeric order; `getHours()` is in 0–23), the count of distinct bill
numbers in that hour. -/
def hourlyTraffic (data : List SalesRow) : List (ℕ × ℕ) :=
  ((List.range 24).filter (fun h => data.any (fun d => d.hourOfDay = h))).map
    (fun h => (h, (distinctFirst
      ((data.filter (fun d => d.hourOfDay = h)).map SalesRow.billNumber)).length))

/-- The peak hour of `generatePeakHourAnalysis` (src/main.ts line 4139):
`hourlyTraffic.sort((a, b) => b.count - a.count)[0]?.hour || 12` — the
stable descending sort by count, the first entry's hour, with the falsy
fallback `|| 12` that also replaces the hour 0. -/
def peakHour (data : List SalesRow) : ℕ :=
  match List.insertionSort (fun a b : ℕ × ℕ => b.2 ≤ a.2) (hourlyTraffic data) with
  | [] => 12
  | e :: _ => if e.1 = 0 then 12 else e.1

/-- `String(n).padStart(2, '0')`. -/
def padStart2 (n : ℕ) : String :=
  if (Nat.repr n).length < 2 then "0" ++ Nat.repr n else Nat.repr n

/-- The stored `peakHour1Start` (src/main.ts line 4168). -/
def peakHour1Start (data : List SalesRow) : String :=
  padStart2 (peakHour data) ++ ".00"

/-- The stored `peakHour1End` (src/main.ts lines 4142 and 4169): the fixed
2-hour window end `peakHour + 2`. -/
def peakHour1End (data : List SalesRow) : String :=
  padStart2 (peakHour data + 2) ++ ".00"

/-- Modelled from the spec (§4.5): the argmax of the hour-of-day histogram
of distinct-bill counts — the first hour attaining the maximal count, or
none for empty data. -/
def specPeakHour (data : List SalesRow) : Option ℕ :=
  ((hourlyTraffic data).foldl
    (fun best e => match best with
      | none => some e
      | some b => if b.2 < e.2 then some e else some b) none).map Prod.fst

/-- Claim C5, evaluation at the failing input: a record set whose busiest
hour is 0 (midnight).  The histogram argmax is hour 0, but the code's
`sort(...)[0]?.hour || 12` treats the hour value 0 as falsy and reports
peak hour 12 with window 12.00–14.00 instead of 0 with window
00.00–02.00, contradicting the function's own description ("find the
single busiest hour by transaction count"). -/
theorem c5_peak_hour_zero_bug :
    peakHour [{ mkRow "B1" 10 with hourOfDay := 0 }] = 12 ∧
    specPeakHour [{ mkRow "B1" 10 with hourOfDay := 0 }] = some 0 ∧
    peakHour1Start [{ mkRow "B1" 10 with hourOfDay := 0 }] = "12.00" ∧
    peakHour1End [{ mkRow "B1" 10 with hourOfDay := 0 }] = "14.00" ∧
    (12 : ℕ) ≠ 0 := by
  refine ⟨?_, ?_, ?_, ?_, by decide⟩ <;> decide

/-- A customer profile built by `generateCustomerAnalysisInsights`
(src/main.ts lines 7081–7097): distinct bills as an insertion-ordered
set, earliest seen timestamp, total spend — accumulated over the ENTIRE
named history. -/
structure CustomerProfile where
  name : String
  bills : List String
  firstSeen : ℤ
  totalSpend : ℚ
deriving DecidableEq, Repr

/-- `Set.add`: append if not already present. -/
def setAdd (l : List String) (b : String) : List String :=
  if b ∈ l then l else l ++ [b]

/-- Apply one named record to a customer profile: add the bill to the
set, add the revenue, lower the first-seen timestamp if needed. -/
def applyRow (p : CustomerProfile) (bill : String) (date : ℤ) (rev : ℚ) :
    CustomerProfile :=
  { p with bills := setAdd p.bills bill
           totalSpend := p.totalSpend + rev
           firstSeen := if date < p.firstSeen then date else p.firstSeen }

/-- Update the profile of `name` in place, creating it (with `firstSeen`
initialised to this record's date) if absent — the `if (!acc[name])`
branch of the reduce. -/
def upsertProfile : List CustomerProfile → String → String → ℤ → ℚ →
    List CustomerProfile
  | [], name, bill, date, rev =>
      [applyRow { name := name, bills := [], firstSeen := date, totalSpend := 0 }
        bill date rev]
  | p :: rest, name, bill, date, rev =>
      if p.name = name then applyRow p bill date rev :: rest
      else p :: upsertProfile rest name bill date rev

/-- Truthiness of `d['Customer Name']`: present and non-empty. -/
def hasCustomerName (d : SalesRow) : Bool :=
  d.customerName.getD "" ≠ ""

/-- `customerProfiles` of `generateCustomerAnalysisInsights`: one profile
per named customer over the whole history, in first-appearance order. -/
def customerProfiles (allData : List SalesRow) : List CustomerProfile :=
  (allData.filter hasCustomerName).foldl
    (fun acc d =>
      upsertProfile acc (d.customerName.getD "") d.billNumber d.salesDateIn d.revenue)
    []

/-- `activeProfiles`: the profiles whose name occurs among the current
period's customer names. -/
def activeProfiles (currentData allData : List SalesRow) : List CustomerProfile :=
  (customerProfiles allData).filter
    (fun p => currentData.any (fun d => d.customerName = some p.name))

/-- The loyal-customer list of src/main.ts lines 7116–7119: active
profiles with more than 2 distinct bills — counted over the profile's
bill set, which spans the entire history, not the current window. -/
def loyalCustomers (currentData allData : List SalesRow) : List CustomerProfile :=
  (activeProfiles currentData allData).filter (fun p => 2 < p.bills.length)

/-- The new-customer list of src/main.ts lines 7112–7115: active profiles
first seen inside the current window. -/
def newCustomers (currentData allData : List SalesRow) (periodStart periodEnd : ℤ) :
    List CustomerProfile :=
  (activeProfiles currentData allData).filter
    (fun p => periodStart ≤ p.firstSeen ∧ p.firstSeen ≤ periodEnd)

/-- Modelled from the spec (§4.5): the number of distinct bills of a
customer *within the current window*. -/
def specWindowBillCount (allData : List SalesRow) (ws we : ℤ) (name : String) : ℕ :=
  (distinctFirst ((allData.filter
    (fun d => d.customerName = some name ∧ ws ≤ d.salesDateIn ∧ d.salesDateIn ≤ we)).map
      SalesRow.billNumber)).length

/-- A named row for the customer-segmentation evaluation. -/
def custRow (bill : String) (date : ℤ) : SalesRow :=
  { mkRow bill 10 with customerName := some "Alice", salesDateIn := date }

/-- Claim C2, evaluation at the failing input: customer Alice has three
bills B1, B2, B3 before the window and one bill B4 inside the window
[5, 20].  She is active in the window with 1 distinct bill there, yet the
code classifies her as loyal because `p.bills.size > 2` counts her four
full-history bills, contradicting the code's own comment "Loyal Customer:
more than 2 transactions in the period" and the spec's within-window
count. -/
theorem c2_loyal_full_history_bug :
    (loyalCustomers [custRow "B4" 10]
      [custRow "B1" 1, custRow "B2" 2, custRow "B3" 3, custRow "B4" 10]).map
        CustomerProfile.name = ["Alice"] ∧
    specWindowBillCount
      [custRow "B1" 1, custRow "B2" 2, custRow "B3" 3, custRow "B4" 10] 5 20 "Alice"
      = 1 ∧
    ¬(2 < 1) ∧
    (newCustomers [custRow "B4" 10]
      [custRow "B1" 1, custRow "B2" 2, custRow "B3" 3, custRow "B4" 10] 5 20) = [] := by
  refine ⟨?_, ?_, by decide, ?_⟩ <;> decide

/-- The cached snapshot read by the view-compiled click handler
(src/main.ts lines 2738–2753): upload-batch count, the optional
last-transaction cursor (`instanceof Date` models as `some`), and the
cached records. -/
structure CachedResult where
  uploadCount : ℕ
  lastTransactionDate : Option ℤ
  data : List SalesRow
deriving Repr

/-- The Firestore page size of the full rebuild (src/main.ts line 2792). -/
def PAGE_SIZE : ℕ := 10000

/-- The paginated fetch loop of the full rebuild (src/main.ts lines
2796–2810): while fewer records than the observed total are accumulated,
fetch a page; an empty page breaks the loop.  Returns the fetched records
and the number of page fetches (`getDocs` calls). -/
def paginateGo (total : ℕ) (rem acc : List SalesRow) (fetches : ℕ) :
    List SalesRow × ℕ :=
  if acc.length < total then
    if hpage : (rem.take PAGE_SIZE).isEmpty then (acc, fetches + 1)
    else
      paginateGo total (rem.drop PAGE_SIZE) (acc ++ rem.take PAGE_SIZE) (fetches + 1)
  else (acc, fetches)
termination_by rem.length
decreasing_by
  have hne : rem ≠ [] := by
    intro h
    rw [h] at hpage
    simp [PAGE_SIZE] at hpage
  simp only [List.length_drop]
  exact Nat.sub_lt (List.length_pos.mpr hne) (by norm_num [PAGE_SIZE])

/-- Outcome of the reconciliation: either the "no sales data" early return
or a final record set. -/
inductive ReconcileResult where
  | noData
  | done (finalData : List SalesRow)
deriving Repr

/-- The full-rebuild branch (Case 3, src/main.ts lines 2781–2812): count
the remote bills (0 when no upload batches exist), bail out when 0,
otherwise fetch pages in timestamp order. -/
def fullRefresh (currentUploadCount : ℕ) (remote : List SalesRow) :
    ReconcileResult × ℕ :=
  let totalBills := if 0 < currentUploadCount then remote.length else 0
  if totalBills = 0 then (ReconcileResult.noData, 0)
  else
    let fetched := paginateGo totalBills remote [] 0
    (ReconcileResult.done fetched.1, fetched.2)

/-- The cache reconciliation of the view-compiled click handler
(src/main.ts lines 2740–2813).  `remote` is the remote record set in
ascending timestamp order.  Returns the outcome and the number of remote
page fetches (`getDocs` calls; the `getCountFromServer` count reads are
not page fetches).
Case 1: cache valid (equal batch counts) — cached records, no fetch.
Case 2: cache outdated with a valid cursor — one query for records newer
than the cursor, appended to the cached records.
Case 3: otherwise — full refresh. -/
def reconcileCompiledData (cached : Option CachedResult) (currentUploadCount : ℕ)
    (remote : List SalesRow) : ReconcileResult × ℕ :=
  match cached with
  | some c =>
      if c.uploadCount = currentUploadCount then (ReconcileResult.done c.data, 0)
      else
        match c.lastTransactionDate with
        | some cursor =>
            if c.uploadCount < currentUploadCount then
              (ReconcileResult.done
                (c.data ++ remote.filter (fun d => cursor < d.salesDateIn)), 1)
            else fullRefresh currentUploadCount remote
        | none => fullRefresh currentUploadCount remote
  | none => fullRefresh currentUploadCount remote

/-- Claim C4: when the cached snapshot's source batch count equals the
remote batch count, reconciliation performs zero remote page fetches and
the resulting record set is exactly the cached records, unchanged. -/
theorem c4_valid_cache_zero_fetches (c : CachedResult) (currentUploadCount : ℕ)
    (remote : List SalesRow) (h : c.uploadCount = currentUploadCount) :
    reconcileCompiledData (some c) currentUploadCount remote
      = (ReconcileResult.done c.data, 0) := by
  show (if c.uploadCount = currentUploadCount then (ReconcileResult.done c.data, 0)
    else
      match c.lastTransactionDate with
      | some cursor =>
          if c.uploadCount < currentUploadCount then
            (ReconcileResult.done
              (c.data ++ remote.filter (fun d => cursor < d.salesDateIn)), 1)
          else fullRefresh currentUploadCount remote
      | none => fullRefresh currentUploadCount remote)
    = (ReconcileResult.done c.data, 0)
  rw [if_pos h]

/-- Witness for `c4_valid_cache_zero_fetches`: a snapshot with
`sourceBatchCount = 3` against a remote batch count of 3 and a non-empty
remote store. -/
theorem c4_valid_cache_zero_fetches_witness :
    ({ uploadCount := 3, lastTransactionDate := some 7,
       data := [mkRow "B1" 10] } : CachedResult).uploadCount = 3 ∧
    reconcileCompiledData
      (some { uploadCount := 3, lastTransactionDate := some 7, data := [mkRow "B1" 10] })
      3 [mkRow "B1" 10, mkRow "B2" 20]
      = (ReconcileResult.done [mkRow "B1" 10], 0) :=
  ⟨rfl, c4_valid_cache_zero_fetches _ 3 _ rfl⟩

/-- A raw uploaded row as handed to `processData` (src/main.ts line 539):
each cell of interest is either absent (`none`, `hasOwnProperty` false)
or a present string value. -/
structure RawRow where
  billNumber : Option String
  salesDateIn : Option String
  branch : Option String
  visitPurpose : Option String
  menuCategory : Option String
  menu : Option String
  qty : Option String
  price : Option String
  nettSales : Option String
deriving DecidableEq, Repr

/-- The fixed required-column list of src/main.ts line 540. -/
def requiredColumns : List String :=
  ["Bill Number", "Sales Date In", "Branch", "Visit Purpose", "Menu Category",
   "Menu", "Qty", "Price", "Nett Sales"]

/-- `row.hasOwnProperty(col)` for the required columns. -/
def hasCol (r : RawRow) : String → Bool
  | "Bill Number" => r.billNumber.isSome
  | "Sales Date In" => r.salesDateIn.isSome
  | "Branch" => r.branch.isSome
  | "Visit Purpose" => r.visitPurpose.isSome
  | "Menu Category" => r.menuCategory.isSome
  | "Menu" => r.menu.isSome
  | "Qty" => r.qty.isSome
  | "Price" => r.price.isSome
  | "Nett Sales" => r.nettSales.isSome
  | _ => false

/-- The row filter of src/main.ts line 542:
`row['Bill Number'] && row['Bill Number'] !== 'Bill Number'` — a truthy
(present, non-empty) bill number that is not the literal header string. -/
def isValidRow (r : RawRow) : Bool :=
  match r.billNumber with
  | some s => s ≠ "" && s ≠ "Bill Number"
  | none => false

/-- The validation errors thrown by `processData` (lines 545, 551, 570). -/
inductive ProcessError where
  | noValidRows
  | missingColumn (col : String)
  | invalidDate (billNumber : Option String) (raw : Option String)
deriving DecidableEq, Repr

/-- A normalized output entry of `processData` (the analytically relevant
fields of the entry assembled at lines 555–573). -/
structure ProcessedRow where
  billNumber : Option String
  salesDateIn : ℤ
  quantity : ℤ
  revenue : ℚ
  branch : Option String
  visitPurpose : Option String
  itemGroup : Option String
  itemName : Option String
deriving DecidableEq, Repr

/-- Normalization of one surviving row (src/main.ts lines 555–573),
parameterized by the JavaScript parsers: `pDate` models
`new Date(s).getTime()` when the date is valid, `pInt` models
`parseInt(s, 10)` when not NaN, `pFloat` models `parseFloat(s)` when not
NaN.  A failed or absent numeric parse defaults to 0 (`|| 0`); a failed
or absent date throws, naming the row's bill number and the raw value. -/
def processRow (pDate : String → Option ℤ) (pInt : String → Option ℤ)
    (pFloat : String → Option ℚ) (r : RawRow) : Except ProcessError ProcessedRow :=
  match r.salesDateIn.bind pDate with
  | none => Except.error (ProcessError.invalidDate r.billNumber r.salesDateIn)
  | some t =>
      Except.ok { billNumber := r.billNumber, salesDateIn := t
                  quantity := (r.qty.bind pInt).getD 0
                  revenue := (r.nettSales.bind pFloat).getD 0
                  branch := r.branch, visitPurpose := r.visitPurpose
                  itemGroup := r.menuCategory, itemName := r.menu }

/-- The row-mapping loop of src/main.ts lines 555–574: normalizes rows in
order, propagating the first thrown error. -/
def processRows (pDate : String → Option ℤ) (pInt : String → Option ℤ)
    (pFloat : String → Option ℚ) : List RawRow → Except ProcessError (List ProcessedRow)
  | [] => Except.ok []
  | r :: rest =>
      match processRow pDate pInt pFloat r with
      | Except.error e => Except.error e
      | Except.ok entry =>
          match processRows pDate pInt pFloat rest with
          | Except.error e => Except.error e
          | Except.ok entries => Except.ok (entry :: entries)

/-- The body of `processData` after the row filter (src/main.ts lines
544–576): fail when no valid rows remain, fail naming the first required
column missing from the first valid row, otherwise normalize every valid
row in order. -/
def processValidRows (pDate : String → Option ℤ) (pInt : String → Option ℤ)
    (pFloat : String → Option ℚ) (validJsonData : List RawRow) :
    Except ProcessError (List ProcessedRow) :=
  match validJsonData with
  | [] => Except.error ProcessError.noValidRows
  | first :: _ =>
      match requiredColumns.find? (fun c => !(hasCol first c)) with
      | some c => Except.error (ProcessError.missingColumn c)
      | none => processRows pDate pInt pFloat validJsonData

/-- `processData` (src/main.ts lines 539–577): filter to rows with a
truthy, non-header bill number, then validate and normalize. -/
def processData (pDate : String → Option ℤ) (pInt : String → Option ℤ)
    (pFloat : String → Option ℚ) (jsonData : List RawRow) :
    Except ProcessError (List ProcessedRow) :=
  processValidRows pDate pInt pFloat (jsonData.filter isValidRow)

theorem processRow_isOk (pDate : String → Option ℤ) (pInt : String → Option ℤ)
    (pFloat : String → Option ℚ) (r : RawRow) :
    (∃ e, processRow pDate pInt pFloat r = Except.ok e)
      ↔ (r.salesDateIn.bind pDate).isSome = true := by
  unfold processRow
  cases h : r.salesDateIn.bind pDate <;> simp

theorem processRow_error_shape (pDate : String → Option ℤ) (pInt : String → Option ℤ)
    (pFloat : String → Option ℚ) (r : RawRow) (e : ProcessError)
    (h : processRow pDate pInt pFloat r = Except.error e) :
    e = ProcessError.invalidDate r.billNumber r.salesDateIn ∧
      r.salesDateIn.bind pDate = none := by
  unfold processRow at h
  cases hd : r.salesDateIn.bind pDate <;> rw [hd] at h
  · exact ⟨(Except.error.injEq _ _ ▸ congrArg id h).symm ▸ rfl, rfl⟩
  · cases h

theorem processRows_isOk (pDate : String → Option ℤ) (pInt : String → Option ℤ)
    (pFloat : String → Option ℚ) (l : List RawRow) :
    (∃ out, processRows pDate pInt pFloat l = Except.ok out)
      ↔ ∀ r ∈ l, (r.salesDateIn.bind pDate).isSome = true := by
  induction l with
  | nil => simp [processRows]
  | cons r rest ih =>
      constructor
      · rintro ⟨out, hout⟩
        simp only [processRows] at hout
        cases hr : processRow pDate pInt pFloat r with
        | error e => rw [hr] at hout; cases hout
        | ok entry =>
            rw [hr] at hout
            cases hrest : processRows pDate pInt pFloat rest with
            | error e => rw [hrest] at hout; cases hout
            | ok entries =>
                intro a ha
                rcases List.mem_cons.mp ha with rfl | ha
                · exact (processRow_isOk pDate pInt pFloat a).mp ⟨entry, hr⟩
                · exact (ih.mp ⟨entries, hrest⟩) a ha
      · intro hall
        obtain ⟨entry, hr⟩ := (processRow_isOk pDate pInt pFloat r).mpr
          (hall r (List.mem_cons_self r rest))
        obtain ⟨entries, hrest⟩ := ih.mpr (fun a ha => hall a (List.mem_cons_of_mem r ha))
        exact ⟨entry :: entries, by simp only [processRows, hr, hrest]⟩

theorem processRows_ok_spec (pDate : String → Option ℤ) (pInt : String → Option ℤ)
    (pFloat : String → Option ℚ) :
    ∀ (l : List RawRow) (out : List ProcessedRow),
      processRows pDate pInt pFloat l = Except.ok out →
      out.length = l.length ∧
      ∀ i (h1 : i < l.length) (h2 : i < out.length),
        processRow pDate pInt pFloat (l.get ⟨i, h1⟩) = Except.ok (out.get ⟨i, h2⟩) := by
  intro l
  induction l with
  | nil =>
      intro out h
      simp only [processRows] at h
      cases h
      exact ⟨rfl, fun i h1 => absurd h1 (Nat.not_lt_zero i)⟩
  | cons r rest ih =>
      intro out h
      simp only [processRows] at h
      cases hr : processRow pDate pInt pFloat r with
      | error e => rw [hr] at h; cases h
      | ok entry =>
          rw [hr] at h
          cases hrest : processRows pDate pInt pFloat rest with
          | error e => rw [hrest] at h; cases h
          | ok entries =>
              rw [hrest] at h
              cases h
              obtain ⟨hlen, hpt⟩ := ih entries hrest
              refine ⟨by simp [hlen], ?_⟩
              intro i h1 h2
              cases i with
              | zero => simpa using hr
              | succ j =>
                  exact hpt j (by simpa using h1) (by simpa using h2)

theorem processRows_error_spec (pDate : String → Option ℤ) (pInt : String → Option ℤ)
    (pFloat : String → Option ℚ) :
    ∀ (l : List RawRow) (e : ProcessError),
      processRows pDate pInt pFloat l = Except.error e →
      ∃ r ∈ l, processRow pDate pInt pFloat r = Except.error e := by
  intro l
  induction l with
  | nil =>
      intro e h
      simp only [processRows] at h
      cases h
  | cons r rest ih =>
      intro e h
      simp only [processRows] at h
      cases hr : processRow pDate pInt pFloat r with
      | error e2 =>
          rw [hr] at h
          cases h
          exact ⟨r, List.mem_cons_self r rest, hr⟩
      | ok entry =>
          rw [hr] at h
          cases hrest : processRows pDate pInt pFloat rest with
          | error e2 =>
              rw [hrest] at h
              cases h
              obtain ⟨a, ha, he⟩ := ih e hrest
              exact ⟨a, List.mem_cons_of_mem r ha, he⟩
          | ok entries => rw [hrest] at h; cases h

theorem processRow_ok_shape (pDate : String → Option ℤ) (pInt : String → Option ℤ)
    (pFloat : String → Option ℚ) (r : RawRow) (e : ProcessedRow)
    (h : processRow pDate pInt pFloat r = Except.ok e) :
    e.quantity = (r.qty.bind pInt).getD 0 ∧
      e.revenue = (r.nettSales.bind pFloat).getD 0 := by
  unfold processRow at h
  cases hd : r.salesDateIn.bind pDate <;> rw [hd] at h
  · cases h
  · cases h
    exact ⟨rfl, rfl⟩

/-- Claim C9 (amended): normalization fails exactly when (a) no row has a
bill number that is truthy and different from the literal header string
"Bill Number" (merely being non-empty is not enough: header rows are
dropped too, and when nothing else remains the no-valid-rows error is
thrown), or (b) the first valid row is missing one of the fixed required
columns, or (c) some valid row's date fails to parse; the missing-column
error names a missing required column, the date error names the offending
row's bill number and raw date value, and on success every malformed
numeric field (quantity, revenue) defaults to 0. -/
theorem c9_validation_contract (pDate : String → Option ℤ) (pInt : String → Option ℤ)
    (pFloat : String → Option ℚ) (rows : List RawRow) :
    ((∃ out, processData pDate pInt pFloat rows = Except.ok out) ↔
      (rows.filter isValidRow ≠ [] ∧
       (∀ first, (rows.filter isValidRow).head? = some first →
          ∀ c ∈ requiredColumns, hasCol first c = true) ∧
       (∀ r ∈ rows.filter isValidRow, (r.salesDateIn.bind pDate).isSome = true))) ∧
    (processData pDate pInt pFloat rows = Except.error ProcessError.noValidRows ↔
      rows.filter isValidRow = []) ∧
    (∀ c, processData pDate pInt pFloat rows
        = Except.error (ProcessError.missingColumn c) →
      c ∈ requiredColumns ∧
        ∃ first, (rows.filter isValidRow).head? = some first ∧ hasCol first c = false) ∧
    (∀ b raw, processData pDate pInt pFloat rows
        = Except.error (ProcessError.invalidDate b raw) →
      ∃ r ∈ rows.filter isValidRow, r.billNumber = b ∧ r.salesDateIn = raw ∧
        raw.bind pDate = none) ∧
    (∀ out, processData pDate pInt pFloat rows = Except.ok out →
      ∀ i (h1 : i < (rows.filter isValidRow).length) (h2 : i < out.length),
        (out.get ⟨i, h2⟩).quantity
            = (((rows.filter isValidRow).get ⟨i, h1⟩).qty.bind pInt).getD 0 ∧
        (out.get ⟨i, h2⟩).revenue
            = (((rows.filter isValidRow).get ⟨i, h1⟩).nettSales.bind pFloat).getD 0) := by
  unfold processData
  refine ⟨?_, ?_, ?_, ?_, ?_⟩
  · cases hVc : rows.filter isValidRow with
    | nil =>
        simp only [processValidRows]
        constructor
        · rintro ⟨out, hout⟩
          cases hout
        · rintro ⟨hne, -, -⟩
          exact absurd rfl hne
    | cons first rest =>
        simp only [processValidRows]
        cases hf : requiredColumns.find? (fun c => !(hasCol first c)) with
        | some c =>
            constructor
            · rintro ⟨out, hout⟩
              cases hout
            · rintro ⟨-, hcols, -⟩
              have h1 := List.find?_some hf
              have h2 := List.mem_of_find?_eq_some hf
              have h3 := hcols first rfl c h2
              rw [h3] at h1
              cases h1
        | none =>
            rw [processRows_isOk]
            constructor
            · intro hall
              refine ⟨List.cons_ne_nil first rest, ?_, hall⟩
              intro f hf2 c hc
              cases hf2
              have := List.find?_eq_none.mp hf c hc
              simpa using this
            · rintro ⟨-, -, hall⟩
              exact hall
  · cases hVc : rows.filter isValidRow with
    | nil =>
        simp only [processValidRows]
    | cons first rest =>
        simp only [processValidRows]
        constructor
        · intro hout
          cases hf : requiredColumns.find? (fun c => !(hasCol first c)) with
          | some c =>
              rw [hf] at hout
              cases hout
          | none =>
              rw [hf] at hout
              cases hrows : processRows pDate pInt pFloat (first :: rest) with
              | error e =>
                  rw [hrows] at hout
                  obtain ⟨r, -, hr⟩ := processRows_error_spec pDate pInt pFloat _ _ hrows
                  obtain ⟨rfl, -⟩ := processRow_error_shape pDate pInt pFloat r e hr
                  cases hout
              | ok out =>
                  rw [hrows] at hout
                  cases hout
        · intro h
          cases h
  · intro c
    cases hVc : rows.filter isValidRow with
    | nil =>
        simp only [processValidRows]
        intro h
        cases h
    | cons first rest =>
        simp only [processValidRows]
        cases hf : requiredColumns.find? (fun c2 => !(hasCol first c2)) with
        | some c2 =>
            intro h
            cases h
            refine ⟨List.mem_of_find?_eq_some hf, first, rfl, ?_⟩
            have h1 := List.find?_some hf
            simpa using h1
        | none =>
            intro hout
            cases hrows : processRows pDate pInt pFloat (first :: rest) with
            | error e =>
                rw [hrows] at hout
                obtain ⟨r, -, hr⟩ := processRows_error_spec pDate pInt pFloat _ _ hrows
                obtain ⟨rfl, -⟩ := processRow_error_shape pDate pInt pFloat r e hr
                cases hout
            | ok out =>
                rw [hrows] at hout
                cases hout
  · intro b raw
    cases hVc : rows.filter isValidRow with
    | nil =>
        simp only [processValidRows]
        intro h
        cases h
    | cons first rest =>
        simp only [processValidRows]
        cases hf : requiredColumns.find? (fun c => !(hasCol first c)) with
        | some c =>
            intro h
            cases h
        | none =>
            intro hout
            cases hrows : processRows pDate pInt pFloat (first :: rest) with
            | error e =>
                rw [hrows] at hout
                obtain ⟨r, hrmem, hr⟩ := processRows_error_spec pDate pInt pFloat _ _ hrows
                obtain ⟨rfl, hdate⟩ := processRow_error_shape pDate pInt pFloat r e hr
                cases hout
                exact ⟨r, hrmem, rfl, rfl, hdate⟩
            | ok out =>
                rw [hrows] at hout
                cases hout
  · intro out hout
    cases hVc : rows.filter isValidRow with
    | nil =>
        rw [hVc] at hout
        simp only [processValidRows] at hout
        cases hout
    | cons first rest =>
        rw [hVc] at hout
        simp only [processValidRows] at hout
        cases hf : requiredColumns.find? (fun c => !(hasCol first c)) with
        | some c =>
            rw [hf] at hout
            cases hout
        | none =>
            rw [hf] at hout
            obtain ⟨hlen, hpt⟩ := processRows_ok_spec pDate pInt pFloat _ out hout
            intro i h1 h2
            exact processRow_ok_shape pDate pInt pFloat _ _ (hpt i h1 h2)

/-- A concrete date parser for witnesses: accepts only "2024-01-01". -/
def sampleParseDate : String → Option ℤ :=
  fun s => if s = "2024-01-01" then some 1704067200000 else none

/-- A concrete integer parser for witnesses: accepts only "2". -/
def sampleParseInt : String → Option ℤ :=
  fun s => if s = "2" then some 2 else none

/-- A concrete float parser for witnesses: accepts only "100". -/
def sampleParseFloat : String → Option ℚ :=
  fun s => if s = "100" then some 100 else none

/-- A fully populated raw row whose bill number is the literal header
string "Bill Number". -/
def headerOnlyRow : RawRow :=
  { billNumber := some "Bill Number", salesDateIn := some "2024-01-01"
    branch := some "Jakarta", visitPurpose := some "Dine In"
    menuCategory := some "Food", menu := some "Sate", qty := some "2"
    price := some "50", nettSales := some "100" }

/-- Claim C9, counterexample: a single row whose bill number is the
non-empty literal "Bill Number", with every required column present and a
parsable date.  None of the claim's failure conditions (a)–(c) hold as
worded — the identifier is non-empty, no required column is missing, the
date parses — yet normalization fails with the no-valid-rows error,
because the row filter also drops rows whose bill number equals the
header literal. -/
theorem c9_counterexample :
    processData sampleParseDate sampleParseInt sampleParseFloat [headerOnlyRow]
      = Except.error ProcessError.noValidRows ∧
    headerOnlyRow.billNumber = some "Bill Number" ∧
    ("Bill Number" : String) ≠ "" ∧
    (∀ c ∈ requiredColumns, hasCol headerOnlyRow c = true) ∧
    (headerOnlyRow.salesDateIn.bind sampleParseDate).isSome = true := by
  refine ⟨rfl, rfl, by decide, by decide, by decide⟩

/-- Witness instantiating `c9_validation_contract` at a concrete input. -/
theorem c9_validation_contract_witness :
    processData sampleParseDate sampleParseInt sampleParseFloat [headerOnlyRow]
      = Except.error ProcessError.noValidRows ↔
    ([headerOnlyRow].filter isValidRow = []) :=
  (c9_validation_contract sampleParseDate sampleParseInt sampleParseFloat
    [headerOnlyRow]).2.1

/-- A valid raw row (bill number "T001"). -/
def validSampleRow : RawRow :=
  { headerOnlyRow with billNumber := some "T001" }

/-- A dropped raw row (absent bill number). -/
def droppedSampleRow : RawRow :=
  { headerOnlyRow with billNumber := none }

/-- Claim C10: normalization silently drops exactly the rows whose bill
number is absent, empty, or the literal header string "Bill Number": a
row survives the filter iff its bill number is a non-empty string other
than "Bill Number"; the whole result (success or error) depends only on
the surviving rows, so dropped rows cause no error and no reported count;
and on success the output is, entry by entry and in order, the normalized
image of the corresponding surviving row. -/
theorem c10_invalid_rows_silently_dropped (pDate : String → Option ℤ)
    (pInt : String → Option ℤ) (pFloat : String → Option ℚ) (rows : List RawRow)
    (hvalid : rows.filter isValidRow ≠ []) :
    (∀ r : RawRow, isValidRow r = true ↔
        ∃ s, r.billNumber = some s ∧ s ≠ "" ∧ s ≠ "Bill Number") ∧
    (∀ rows2 : List RawRow, rows2.filter isValidRow = rows.filter isValidRow →
        processData pDate pInt pFloat rows2 = processData pDate pInt pFloat rows) ∧
    (∀ out, processData pDate pInt pFloat rows = Except.ok out →
        out.length = (rows.filter isValidRow).length ∧
        ∀ i (h1 : i < (rows.filter isValidRow).length) (h2 : i < out.length),
          processRow pDate pInt pFloat ((rows.filter isValidRow).get ⟨i, h1⟩)
            = Except.ok (out.get ⟨i, h2⟩)) := by
  refine ⟨?_, ?_, ?_⟩
  · intro r
    cases hb : r.billNumber with
    | none => simp [isValidRow, hb]
    | some s =>
        simp only [isValidRow, hb, Bool.and_eq_true, decide_eq_true_eq]
        constructor
        · rintro ⟨h1, h2⟩
          exact ⟨s, rfl, by simpa using h1, by simpa using h2⟩
        · rintro ⟨s2, hs2, h1, h2⟩
          cases hs2
          exact ⟨by simpa using h1, by simpa using h2⟩
  · intro rows2 h
    unfold processData
    rw [h]
  · intro out hout
    unfold processData at hout
    cases hVc : rows.filter isValidRow with
    | nil =>
        rw [hVc] at hout
        simp only [processValidRows] at hout
        cases hout
    | cons first rest =>
        rw [hVc] at hout
        simp only [processValidRows] at hout
        cases hf : requiredColumns.find? (fun c => !(hasCol first c)) with
        | some c =>
            rw [hf] at hout
            cases hout
        | none =>
            rw [hf] at hout
            exact processRows_ok_spec pDate pInt pFloat _ out hout

/-- Witness for `c10_invalid_rows_silently_dropped`: dropping a row with
an absent bill number leaves the result unchanged. -/
theorem c10_invalid_rows_silently_dropped_witness :
    ([droppedSampleRow, validSampleRow] : List RawRow).filter isValidRow ≠ [] ∧
    processData sampleParseDate sampleParseInt sampleParseFloat [validSampleRow]
      = processData sampleParseDate sampleParseInt sampleParseFloat
          [droppedSampleRow, validSampleRow] :=
  ⟨by decide,
    (c10_invalid_rows_silently_dropped sampleParseDate sampleParseInt sampleParseFloat
      [droppedSampleRow, validSampleRow] (by decide)).2.1 [validSampleRow] (by decide)⟩
